import Mathlib

/-!
Verification development for the XRPL Playground test-suite engine
(`app.js`).  The JavaScript source is embedded shallowly: plain data
becomes inductive types, the mutable `transactions` array becomes an
explicit state record threaded through the operations, and the external
network client becomes an oracle describing the outcome of a submission.
JavaScript numbers are modelled as exact rationals; timestamps are opaque
strings supplied by the environment.
-/

namespace Quark

/-- JSON-like values as produced by the transaction-object builders.
Numbers are modelled as exact rationals (JavaScript doubles are
abstracted to their exact values). -/
inductive JValue where
  | str (s : String)
  | num (q : ℚ)
  | bool (b : Bool)
  | null
  | arr (elems : List JValue)
  | obj (members : List (String × JValue))

/-- The whitespace characters trimmed by the JavaScript routines modelled
here (JS also trims some exotic Unicode whitespace, which never occurs in
the inputs of interest). -/
def isJsWsChar (c : Char) : Bool :=
  c = ' ' || c = '\t' || c = '\n' || c = '\r'

/-- Drop leading whitespace from a character list. -/
def skipWs (cs : List Char) : List Char :=
  cs.dropWhile (fun c => isJsWsChar c)

/-- Value of a list of decimal digit characters (code point of `'0'` is
48). -/
def digitsToNat (ds : List Char) : Nat :=
  ds.foldl (fun sofar d => sofar * 10 + (d.toNat - 48)) 0

/-- Model of JavaScript `parseInt(value, 10)`: skip leading whitespace,
read an optional sign and then a maximal run of decimal digits, ignoring
any trailing garbage; `none` models the `NaN` result when no digit is
found. -/
def jsParseInt10 (s : String) : Option Int :=
  let cs := skipWs s.data
  let signAndRest : Int × List Char :=
    match cs with
    | '-' :: tail => (-1, tail)
    | '+' :: tail => (1, tail)
    | other => (1, other)
  let ds := signAndRest.2.takeWhile Char.isDigit
  if ds.isEmpty then none
  else some (signAndRest.1 * (digitsToNat ds : Int))

/-- Hexadecimal digit value, for `\u` escapes in JSON strings (code
point ranges: digits 48-57, lowercase 97-102, uppercase 65-70). -/
def hexVal (c : Char) : Option Nat :=
  let n := c.toNat
  if 48 ≤ n && n ≤ 57 then some (n - 48)
  else if 97 ≤ n && n ≤ 102 then some (n - 87)
  else if 65 ≤ n && n ≤ 70 then some (n - 55)
  else none

/-- Parse the body of a JSON string (after the opening quote), returning
the content characters and the remainder after the closing quote. -/
def parseStringChars : List Char → Option (List Char × List Char)
  | [] => none
  | '"' :: rest => some ([], rest)
  | '\\' :: 'u' :: h1 :: h2 :: h3 :: h4 :: rest =>
    match hexVal h1, hexVal h2, hexVal h3, hexVal h4 with
    | some a, some b, some c, some d =>
      (parseStringChars rest).map
        (fun p => (Char.ofNat (4096 * a + 256 * b + 16 * c + d) :: p.1, p.2))
    | _, _, _, _ => none
  | '\\' :: e :: rest =>
    match escChar e with
    | some c => (parseStringChars rest).map (fun p => (c :: p.1, p.2))
    | none => none
  | c :: rest => (parseStringChars rest).map (fun p => (c :: p.1, p.2))
where
  /-- Single-character JSON escapes. -/
  escChar : Char → Option Char
    | 'n' => some '\n'
    | 't' => some '\t'
    | 'r' => some '\r'
    | 'b' => some (Char.ofNat 8)
    | 'f' => some (Char.ofNat 12)
    | '/' => some '/'
    | '\\' => some '\\'
    | '"' => some '"'
    | _ => none

/-- Fractional digits of a JSON number, if a fraction part is present. -/
def parseFrac : List Char → Option (List Char × List Char)
  | '.' :: r =>
    let fs := r.takeWhile Char.isDigit
    if fs.isEmpty then none else some (fs, r.dropWhile Char.isDigit)
  | cs => some ([], cs)

/-- Exponent digits of a JSON number (after `e`/`E`). -/
def parseExpTail (r : List Char) : Option (Int × List Char) :=
  let signAndRest : Int × List Char :=
    match r with
    | '+' :: tail => (1, tail)
    | '-' :: tail => (-1, tail)
    | other => (1, other)
  let ds := signAndRest.2.takeWhile Char.isDigit
  if ds.isEmpty then none
  else some (signAndRest.1 * (digitsToNat ds : Int), signAndRest.2.dropWhile Char.isDigit)

/-- Exponent part of a JSON number, if present. -/
def parseExp : List Char → Option (Int × List Char)
  | 'e' :: r => parseExpTail r
  | 'E' :: r => parseExpTail r
  | cs => some (0, cs)

/-- Parse a JSON number per the strict JSON grammar (no leading `+`, no
leading zeros), returning its exact rational value. -/
def parseJsonNumber (cs : List Char) : Option (ℚ × List Char) :=
  let negAndRest : Bool × List Char :=
    match cs with
    | '-' :: tail => (true, tail)
    | other => (false, other)
  match negAndRest.2 with
  | [] => none
  | c :: _ =>
    if c.isDigit then
      let ds := negAndRest.2.takeWhile Char.isDigit
      let cs2 := negAndRest.2.dropWhile Char.isDigit
      if 1 < ds.length ∧ ds.head? = some '0' then none
      else
        match parseFrac cs2 with
        | none => none
        | some (fs, cs3) =>
          match parseExp cs3 with
          | none => none
          | some (e, cs4) =>
            let mant : ℚ := (digitsToNat ds : ℚ) + (digitsToNat fs : ℚ) / ((10 : ℚ) ^ fs.length)
            let v : ℚ := mant * (10 : ℚ) ^ e
            some ((if negAndRest.1 then -v else v), cs4)
    else none

mutual

/-- Model of `JSON.parse` on a character list, with fuel (strict JSON
grammar; the fuel only bounds nesting and is always supplied large
enough). Returns the parsed value and the unconsumed remainder. -/
def parseJsonValue : Nat → List Char → Option (JValue × List Char)
  | 0, _ => none
  | fuel + 1, cs =>
    match skipWs cs with
    | 'n' :: 'u' :: 'l' :: 'l' :: rest => some (.null, rest)
    | 't' :: 'r' :: 'u' :: 'e' :: rest => some (.bool true, rest)
    | 'f' :: 'a' :: 'l' :: 's' :: 'e' :: rest => some (.bool false, rest)
    | '"' :: rest =>
      (parseStringChars rest).map (fun p => (.str ⟨p.1⟩, p.2))
    | '[' :: rest =>
      (match skipWs rest with
       | ']' :: r2 => some (.arr [], r2)
       | _ => (parseJsonElems fuel rest).map (fun p => (.arr p.1, p.2)))
    | '{' :: rest =>
      (match skipWs rest with
       | '}' :: r2 => some (.obj [], r2)
       | _ => (parseJsonMembers fuel rest).map (fun p => (.obj p.1, p.2)))
    | rest => (parseJsonNumber rest).map (fun p => (.num p.1, p.2))

/-- Comma-separated JSON array elements up to the closing bracket. -/
def parseJsonElems : Nat → List Char → Option (List JValue × List Char)
  | 0, _ => none
  | fuel + 1, cs =>
    match parseJsonValue fuel cs with
    | none => none
    | some (v, rest) =>
      match skipWs rest with
      | ',' :: rest2 => (parseJsonElems fuel rest2).map (fun p => (v :: p.1, p.2))
      | ']' :: rest2 => some ([v], rest2)
      | _ => none

/-- Comma-separated JSON object members up to the closing brace. -/
def parseJsonMembers : Nat → List Char → Option (List (String × JValue) × List Char)
  | 0, _ => none
  | fuel + 1, cs =>
    match skipWs cs with
    | '"' :: rest =>
      (match parseStringChars rest with
       | none => none
       | some (key, rest1) =>
         match skipWs rest1 with
         | ':' :: rest2 =>
           (match parseJsonValue fuel rest2 with
            | none => none
            | some (v, rest3) =>
              match skipWs rest3 with
              | ',' :: rest4 =>
                (parseJsonMembers fuel rest4).map (fun p => ((⟨key⟩, v) :: p.1, p.2))
              | '}' :: rest4 => some ([(⟨key⟩, v)], rest4)
              | _ => none)
         | _ => none)
    | _ => none

end

/-- Model of `JSON.parse(valueStr)`: `none` models a thrown `SyntaxError`
(the source catches it and falls back to `convertFieldValue`). -/
def jsonParse (s : String) : Option JValue :=
  match parseJsonValue (2 * s.data.length + 2) s.data with
  | none => none
  | some (v, rest) => if skipWs rest = [] then some v else none

/-- Catalog entry for a field; only the `type` member is consulted by the
source (`definitions.FIELDS` entries). -/
structure FieldInfo where
  type : String
deriving DecidableEq, Repr

/-- The external field catalog: the `definitions.FIELDS` list of
`(name, info)` pairs. -/
def Definitions := List (String × FieldInfo)

/-- Source `getFieldInfo(fieldName)` (app.js:1779-1782): first catalog entry with
the given name, else `null`. -/
def getFieldInfo (defs : Definitions) (fieldName : String) : Option FieldInfo :=
  (defs.find? (fun p => p.1 = fieldName)).map (fun p => p.2)

/-- Source `type.startsWith('UInt')` on the catalog type tag. -/
def typeStartsWithUInt (t : String) : Bool :=
  match t.data with
  | 'U' :: 'I' :: 'n' :: 't' :: _ => true
  | _ => false

/-- Source `convertFieldValue(value, fieldInfo)` (app.js:1784-1804): `Amount`
fields are coerced to strings, `UInt*`/`Number` fields are parsed with
`parseInt(value, 10)` falling back to the original string on `NaN`,
everything else is left as the string. -/
def convertFieldValue (value : String) (fieldInfo : Option FieldInfo) : JValue :=
  match fieldInfo with
  | none => .str value
  | some fi =>
    if fi.type = "Amount" then .str value
    else if typeStartsWithUInt fi.type || fi.type = "Number" then
      match jsParseInt10 value with
      | some n => .num (n : ℚ)
      | none => .str value
    else .str value

/-- Raw value attached to a field block: a scalar string from a text
input, a structured record for issued-currency/MPT amounts (whose member
values come from text inputs and are already strings; `String(v)` on them
is the identity), or a missing (`null`/`undefined`) value. -/
inductive RawValue where
  | undef
  | scalar (s : String)
  | record (members : List (String × String))
deriving DecidableEq, Repr

/-- The JavaScript falsiness test `!block.value` on a raw value: only a
missing value or the empty string is falsy (records are always truthy). -/
def RawValue.isFalsy : RawValue → Bool
  | .undef => true
  | .scalar s => s = ""
  | .record _ => false

/-- A field block of a test: `{fieldName, value}` (app.js:1315-1318). -/
structure Block where
  fieldName : String
  value : RawValue
deriving DecidableEq, Repr

/-- Test lifecycle status (app.js:92). -/
inductive TestStatus where
  | pending
  | running
  | passed
  | failed
deriving DecidableEq, Repr

/-- A test ("transaction") as created by `createTransaction`
(app.js:82-98). Optional string fields are `null` until set. -/
structure Transaction where
  id : String
  name : String
  type : Option String
  blocks : List Block
  status : TestStatus
  expectedResult : String
  actualResult : Option String
  submittedAt : Option String
  hash : Option String
deriving DecidableEq, Repr

/-- Source `createTransaction` (app.js:82-98), with the generated id and the
computed name passed in explicitly. -/
def createTransaction (id name : String) : Transaction :=
  { id := id
    name := name
    type := none
    blocks := []
    status := .pending
    expectedResult := "tesSUCCESS"
    actualResult := none
    submittedAt := none
    hash := none }

/-- A configured account; only accounts with a (non-empty) seed can
sign/submit. -/
structure Account where
  address : String
  seed : Option String
deriving DecidableEq, Repr

/-- The truthiness test `acc.seed` used by
`accounts.find(acc => acc.seed)` (app.js:585). -/
def Account.hasSeed (acc : Account) : Prop :=
  match acc.seed with
  | some s => s ≠ ""
  | none => False

instance : DecidablePred Account.hasSeed := fun acc => by
  unfold Account.hasSeed; cases acc.seed <;> infer_instance

/-- The in-memory application state owned by the test registry: the
ordered test collection, the current-test pointer and the account list
(the module-level `transactions`, `currentTransactionId`, `accounts`). -/
structure AppState where
  transactions : List Transaction
  currentTransactionId : Option String
  accounts : List Account
deriving Repr

/-- First element satisfying a predicate (`Array.prototype.find`). -/
def findFirst (p : α → Prop) [DecidablePred p] : List α → Option α
  | [] => none
  | x :: xs => if p x then some x else findFirst p xs

/-- Replace the first element satisfying `p` by its image under `f`;
models an in-place mutation of the object found by
`Array.prototype.find`. -/
def updateFirst (p : α → Prop) [DecidablePred p] (f : α → α) : List α → List α
  | [] => []
  | x :: xs => if p x then f x :: xs else x :: updateFirst p f xs

/-- Source `getCurrentTransaction()` (app.js:125-128). -/
def getCurrentTransaction (st : AppState) : Option Transaction :=
  match st.currentTransactionId with
  | none => none
  | some cid => findFirst (fun tx => tx.id = cid) st.transactions

/-- The per-test mutation performed by `updateTransactionStatus`
(app.js:134-140): set the status, overwrite `actualResult` only when
`result` is non-null, and stamp `submittedAt` exactly when the new
status is `running`. -/
def applyStatus (status : TestStatus) (result : Option String) (now : String)
    (transaction : Transaction) : Transaction :=
  { transaction with
    status := status
    actualResult :=
      match result with
      | some r => some r
      | none => transaction.actualResult
    submittedAt :=
      if status = .running then some now else transaction.submittedAt }

/-- Source `updateTransactionStatus(id, status, result = null)` (app.js:130-141):
mutate the first test with the given id (`now` is the opaque current
time). -/
def updateTransactionStatus (txs : List Transaction) (id : String)
    (status : TestStatus) (result : Option String) (now : String) :
    List Transaction :=
  updateFirst (fun tx => tx.id = id) (applyStatus status result now) txs

/-- The direct field writes of the success branch (app.js:649-651):
record the result code, the transaction hash and the submission time on
the test object. -/
def recordSuccess (actualResult hash now : String) (tx : Transaction) : Transaction :=
  { tx with actualResult := some actualResult, hash := some hash, submittedAt := some now }

/-- The direct field write of the catch branch (app.js:688): record the
extracted (or raw) error result on the test object. -/
def recordErrorResult (actualResult : String) (tx : Transaction) : Transaction :=
  { tx with actualResult := some actualResult }

/-- Lookup in a built transaction object (JS property read on an object
whose keys are unique). -/
def getKey (obj : List (String × JValue)) (k : String) : Option JValue :=
  (obj.find? (fun p => p.1 = k)).map (fun p => p.2)

/-- JS property assignment `obj[k] = v`: overwrite the first occurrence
of the key in place, else append. -/
def setKey : List (String × JValue) → String → JValue → List (String × JValue)
  | [], k, v => [(k, v)]
  | p :: rest, k, v => if p.1 = k then (k, v) :: rest else p :: setKey rest k v

/-- Source `fieldInfo && fieldInfo.type === 'Amount'` (app.js:733). -/
def isAmountInfo : Option FieldInfo → Bool
  | some fi => fi.type = "Amount"
  | none => false

/-- Loop body of `buildTransactionObjectFromTest` (app.js:710-751): skip
falsy values; copy record values key-by-key coercing members to strings;
for `Amount`-typed scalars always use `convertFieldValue`; otherwise try
`JSON.parse` first and fall back to `convertFieldValue`. -/
def addBlockToTx (defs : Definitions) (acc : List (String × JValue))
    (block : Block) : List (String × JValue) :=
  if block.value.isFalsy then acc
  else
    match block.value with
    | .undef => acc
    | .record members =>
      setKey acc block.fieldName (.obj (members.map (fun m => (m.1, .str m.2))))
    | .scalar s =>
      let valueStr := s
      let fieldInfo := getFieldInfo defs block.fieldName
      if isAmountInfo fieldInfo then
        setKey acc block.fieldName (convertFieldValue valueStr fieldInfo)
      else
        match jsonParse valueStr with
        | some parsed => setKey acc block.fieldName parsed
        | none => setKey acc block.fieldName (convertFieldValue valueStr fieldInfo)

/-- Source `buildTransactionObjectFromTest(transaction)` (app.js:704-755). The
initial object literal `{ TransactionType: transaction.type }` gives the
key the value `null` when the test has no type. -/
def buildTransactionObjectFromTest (defs : Definitions)
    (transaction : Transaction) : List (String × JValue) :=
  let txObject : List (String × JValue) :=
    [("TransactionType",
      match transaction.type with
      | some t => .str t
      | none => .null)]
  transaction.blocks.foldl (addBlockToTx defs) txObject

/-- Loop body of `buildTransactionObject` (app.js:1750-1774): like the
from-test builder but with no JSON-parse attempt and with an additional
`valueStr.trim() !== ''` guard on scalars (`trim` yields the empty string
exactly when every character is whitespace). -/
def previewAddBlock (defs : Definitions) (acc : List (String × JValue))
    (block : Block) : List (String × JValue) :=
  if block.value.isFalsy then acc
  else
    match block.value with
    | .undef => acc
    | .record members =>
      setKey acc block.fieldName (.obj (members.map (fun m => (m.1, .str m.2))))
    | .scalar s =>
      if s.data.all isJsWsChar then acc
      else setKey acc block.fieldName (convertFieldValue s (getFieldInfo defs block.fieldName))

/-- Source `buildTransactionObject()` (app.js:1736-1777) on the current test's
type and blocks (the legacy-workspace fallback is the same code on the
legacy variables): `TransactionType` is added only when the type is
truthy. -/
def buildTransactionObject (defs : Definitions) (txType : Option String)
    (blocks : List Block) : List (String × JValue) :=
  let transaction : List (String × JValue) :=
    if txType.getD "" ≠ "" then [("TransactionType", .str (txType.getD ""))] else []
  blocks.foldl (previewAddBlock defs) transaction

/-- Characters allowed after the `te[cflmrs]` head of a ledger result
code: the regex class `[A-Z_]`. -/
def isResultCodeTail (c : Char) : Bool :=
  ('A' ≤ c && c ≤ 'Z') || c = '_'

/-- The regex class `[cflmrs]`. -/
def isResultClassChar (c : Char) : Bool :=
  c = 'c' || c = 'f' || c = 'l' || c = 'm' || c = 'r' || c = 's'

/-- Try to match `te[cflmrs][A-Z_]+` at the head of the character list
(greedy on the tail, as the regex has nothing after the group). -/
def matchResultCodeAt : List Char → Option (List Char)
  | 't' :: 'e' :: x :: rest =>
    if isResultClassChar x then
      let tail := rest.takeWhile isResultCodeTail
      if tail.isEmpty then none else some ('t' :: 'e' :: x :: tail)
    else none
  | _ => none

/-- Leftmost match of `te[cflmrs][A-Z_]+` in the character list. -/
def findResultCode : List Char → Option (List Char)
  | [] => none
  | c :: cs =>
    match matchResultCodeAt (c :: cs) with
    | some m => some m
    | none => findResultCode cs

/-- Source regex match of `te[cflmrs][A-Z_]+` on `error.message` (app.js:681): the
leftmost, greedy match of a ledger-style result code in the error text,
or `none` when the pattern does not occur. -/
def extractResultCode (s : String) : Option String :=
  (findResultCode s.data).map (fun l => ⟨l⟩)

/-- The JavaScript truthiness test on a possibly-absent object property
(used for `!txObject.Account` and `!txObject.LastLedgerSequence`). -/
def jsTruthy : Option JValue → Bool
  | none => false
  | some (.str s) => s ≠ ""
  | some (.num q) => q ≠ 0
  | some (.bool b) => b
  | some .null => false
  | some (.arr _) => true
  | some (.obj _) => true

/-- The keep-condition of the submission cleaning loop (app.js:626-633):
`value !== undefined && value !== null && value !== ''` (strict
equality, so only `null`/`undefined` and the empty string are dropped). -/
def jsKeepClean : JValue → Bool
  | .null => false
  | .str s => s ≠ ""
  | _ => true

/-- Outcome of `client.submitAndWait`: a resolved result (ledger result
code and transaction hash) or a thrown/rejected error carrying a
message. -/
inductive SubmitOutcome where
  | success (transactionResult : String) (hash : String)
  | error (message : String)

/-- Network calls observable from the runner; recorded as a trace so
that "no network call" claims are statable. -/
inductive NetEvent where
  | connect
  | requestLedger
  | submit (txJson : List (String × JValue))
  | disconnect

/-- The external world as seen by one run: the validated ledger index
answered by the `ledger` request, the outcome of a submission (a function
of the submitted object), the wallet address derived from a seed, and the
opaque current timestamp. -/
structure NetworkEnv where
  ledgerIndex : Int
  outcome : List (String × JValue) → SubmitOutcome
  addressOfSeed : String → String
  now : String

/-- Source `runSingleTest(transactionId)` (app.js:565-702), with UI rendering,
toasts, logging and persistence omitted (all are write-only collaborators
of the core). Returns the new state and the trace of network calls.
The branches, in source order: unknown id; missing transaction type;
missing signing account; then the submission attempt whose success branch
records result and hash and whose catch branch extracts a ledger-style
result code from the error message. -/
def runSingleTest (defs : Definitions) (env : NetworkEnv) (st : AppState)
    (transactionId : String) : AppState × List NetEvent :=
  match findFirst (fun tx => tx.id = transactionId) st.transactions with
  | none => (st, [])
  | some transaction =>
    if transaction.type.getD "" = "" then
      let txsNoType :=
        updateTransactionStatus st.transactions transactionId TestStatus.failed
          (some "No transaction type") env.now
      ({ st with transactions := txsNoType }, [])
    else
      let txObject := buildTransactionObjectFromTest defs transaction
      match findFirst Account.hasSeed st.accounts with
      | none =>
        let txsNoAccount :=
          updateTransactionStatus st.transactions transactionId TestStatus.failed
            (some "No signing account") env.now
        ({ st with transactions := txsNoAccount }, [])
      | some signingAccount =>
        let txs1 := updateTransactionStatus st.transactions transactionId TestStatus.running none env.now
        let walletAddress := env.addressOfSeed (signingAccount.seed.getD "")
        let txObject1 :=
          if jsTruthy (getKey txObject "Account") then txObject
          else setKey txObject "Account" (.str walletAddress)
        let withLls : List (String × JValue) × List NetEvent :=
          if jsTruthy (getKey txObject1 "LastLedgerSequence") then (txObject1, [])
          else (setKey txObject1 "LastLedgerSequence" (.num ((env.ledgerIndex : ℚ) + 5)),
                [.requestLedger])
        let cleanedTxObject := withLls.1.filter (fun p => jsKeepClean p.2)
        match env.outcome cleanedTxObject with
        | .success actualResult hash =>
          let txs2 := updateFirst (fun tx => tx.id = transactionId)
            (recordSuccess actualResult hash env.now) txs1
          let status : TestStatus :=
            if actualResult = transaction.expectedResult then .passed else .failed
          let txsDone := updateTransactionStatus txs2 transactionId status (some actualResult) env.now
          ({ st with transactions := txsDone },
           [.connect] ++ withLls.2 ++ [.submit cleanedTxObject, .disconnect])
        | .error message =>
          let actualResult := (extractResultCode message).getD message
          let txs2 := updateFirst (fun tx => tx.id = transactionId)
            (recordErrorResult actualResult) txs1
          let status : TestStatus :=
            if actualResult = transaction.expectedResult then .passed else .failed
          let txsDone := updateTransactionStatus txs2 transactionId status (some actualResult) env.now
          ({ st with transactions := txsDone },
           [.connect] ++ withLls.2 ++ [.submit cleanedTxObject])

/-- The per-test reset performed at the start of `runAllTests`
(app.js:530-535). -/
def resetTest (tx : Transaction) : Transaction :=
  { tx with status := .pending, actualResult := none, hash := none, submittedAt := none }

/-- The sequential `for (const transaction of transactions) await
runSingleTest(transaction.id)` loop: each awaited run completes before
the next id is processed. Returns the final state and, per run, the id
and its network trace. -/
def runLoop (defs : Definitions) (env : NetworkEnv) :
    AppState → List String → AppState × List (String × List NetEvent)
  | st, [] => (st, [])
  | st, id :: ids =>
    let r1 := runSingleTest defs env st id
    let r2 := runLoop defs env r1.1 ids
    (r2.1, (id, r1.2) :: r2.2)

/-- Source `runAllTests()` (app.js:526-554): reset every test, then run each
test once, sequentially, in registry order. -/
def runAllTests (defs : Definitions) (env : NetworkEnv) (st : AppState) :
    AppState × List (String × List NetEvent) :=
  let st0 := { st with transactions := st.transactions.map resetTest }
  runLoop defs env st0 (st0.transactions.map (fun tx => tx.id))

/-- Source `transactions.filter(tx => tx.status === 'passed').length`
(app.js:543, 776, 837). -/
def countPassed (txs : List Transaction) : Nat :=
  (txs.filter (fun tx => tx.status = .passed)).length

/-- Source `transactions.filter(tx => tx.status === 'failed').length`
(app.js:544, 777, 838). -/
def countFailed (txs : List Transaction) : Nat :=
  (txs.filter (fun tx => tx.status = .failed)).length

/-- Source `Math.round` on a finite value: round half toward positive
infinity. -/
def jsMathRound (q : ℚ) : ℤ := ⌊q + 1 / 2⌋

/-- Source `total > 0 ? Math.round((passed / total) * 100) : 0` (app.js:779,
840, 882), with the double arithmetic modelled exactly over ℚ. -/
def passRate (passed total : ℕ) : ℤ :=
  if 0 < total then jsMathRound ((passed : ℚ) / (total : ℚ) * 100) else 0

/-- The aggregate of `renderTestResultsSummary` /
`downloadTestReportJSON` (app.js:776-779, 837-840): `(total, passed,
failed, passRate)` over the whole test collection. -/
def reportSummary (txs : List Transaction) : Nat × Nat × Nat × ℤ :=
  (txs.length, countPassed txs, countFailed txs, passRate (countPassed txs) txs.length)

/-- Core mutation of `addFieldBlock(fieldName, blockType)`
(app.js:1285-1325), DOM work omitted: reject (with a user-visible
warning, the returned flag) when the current test already has a block
with that field name, otherwise push `{fieldName, value: ''}` onto the
current test's blocks. -/
def addFieldBlock (st : AppState) (fieldName : String) : AppState × Bool :=
  match getCurrentTransaction st with
  | none => (st, false)
  | some transaction =>
    match findFirst (fun b => b.fieldName = fieldName) transaction.blocks with
    | some _ => (st, true)
    | none =>
      let txsPushed :=
        updateFirst (fun tx => tx.id = transaction.id)
          (fun tx => { tx with blocks := tx.blocks ++ [⟨fieldName, .scalar ""⟩] })
          st.transactions
      ({ st with transactions := txsPushed }, false)

/-- A block whose raw scalar value is absent, empty, or blank after
trimming (the phrase of the specification, formalized for the amended
claim about skipped fields). -/
def blockBlank (b : Block) : Prop :=
  b.value = .undef ∨ ∃ s, b.value = .scalar s ∧ s.data.all isJsWsChar = true

/-- Formalization of the specification phrase "valid base-10 integer
text": an optional sign followed by one or more decimal digits and
nothing else. -/
def specValidBase10IntegerText (s : String) : Bool :=
  let body :=
    match s.data with
    | '-' :: r => r
    | '+' :: r => r
    | cs => cs
  !body.isEmpty && body.all Char.isDigit

/-! ### Concrete fixtures used by witnesses and counterexamples -/

/-- A small excerpt of the external field catalog (`definitions.FIELDS`). -/
def sampleDefs : Definitions :=
  [("Account", ⟨"AccountID"⟩), ("Destination", ⟨"AccountID"⟩),
   ("Amount", ⟨"Amount"⟩), ("Fee", ⟨"Amount"⟩),
   ("Sequence", ⟨"UInt32"⟩), ("Memos", ⟨"STArray"⟩)]

/-- A network environment whose submissions always reject with an
unclassifiable message. -/
def sampleEnv : NetworkEnv :=
  ⟨1, fun _ => SubmitOutcome.error "boom", fun _ => "rWALLET", "2026-01-01T00:00:00Z"⟩

/-- A network environment whose submissions always reject with an error
message embedding the ledger result code `tecNO_DST`. -/
def sampleTecEnv : NetworkEnv :=
  ⟨1, fun _ => SubmitOutcome.error "Transaction failed, tecNO_DST: The destination account does not exist.",
   fun _ => "rWALLET", "2026-01-01T00:00:00Z"⟩

/-- A freshly created test: no type, no blocks. -/
def sampleNoTypeTx : Transaction := createTransaction "tx-0" "Test 0"

/-- A Payment test expecting `tecNO_DST`. -/
def sampleTecTx : Transaction :=
  { createTransaction "tx-1" "Test 1" with
    type := some "Payment", expectedResult := "tecNO_DST" }

/-- A Payment test whose `Destination` field holds a whitespace-only
scalar. -/
def sampleWsTx : Transaction :=
  { createTransaction "tx-2" "Test 2" with
    type := some "Payment", blocks := [⟨"Destination", .scalar " "⟩] }

/-- A Payment test with an `Amount` field holding numeric-looking text. -/
def sampleAmountTx : Transaction :=
  { createTransaction "tx-3" "Test 3" with
    type := some "Payment", blocks := [⟨"Amount", .scalar "1000000"⟩] }

/-- An account with a signing seed. -/
def sampleAccount : Account := ⟨"rACCOUNT", some "sSEED"⟩

/-! ### Object and list lemmas -/

theorem getKey_setKey_self (obj : List (String × JValue)) (k : String) (v : JValue) :
    getKey (setKey obj k v) k = some v := by
  induction obj with
  | nil => simp [setKey, getKey, List.find?]
  | cons p rest ih =>
    by_cases h : p.1 = k
    · simp [setKey, h, getKey, List.find?]
    · simp only [setKey, if_neg h]
      simpa [getKey, List.find?, h] using ih

theorem getKey_setKey_ne (obj : List (String × JValue)) (k : String)
    (v : JValue) (k' : String) (h : k' ≠ k) :
    getKey (setKey obj k v) k' = getKey obj k' := by
  have h1 : decide (k = k') = false := decide_eq_false (fun e => h e.symm)
  induction obj with
  | nil => simp [setKey, getKey, List.find?, h1]
  | cons p rest ih =>
    by_cases hp : p.1 = k
    · have h2 : decide (p.1 = k') = false :=
        decide_eq_false (fun e => h (e.symm.trans hp))
      simp [setKey, hp, getKey, List.find?, h1, h2]
    · simp only [setKey, if_neg hp]
      by_cases hk : p.1 = k'
      · simp [getKey, List.find?, hk]
      · simpa [getKey, List.find?, hk] using ih

theorem findFirst_eq_none (p : α → Prop) [DecidablePred p] (l : List α)
    (h : ∀ x ∈ l, ¬ p x) : findFirst p l = none := by
  induction l with
  | nil => rfl
  | cons x xs ih =>
    rw [findFirst, if_neg (h x (by simp))]
    exact ih (fun y hy => h y (by simp [hy]))

theorem findFirst_eq_first (p : α → Prop) [DecidablePred p] (l1 : List α) (a : α)
    (l2 : List α) (h1 : ∀ x ∈ l1, ¬ p x) (h2 : p a) :
    findFirst p (l1 ++ a :: l2) = some a := by
  induction l1 with
  | nil => simp [findFirst, if_pos h2]
  | cons x xs ih =>
    rw [List.cons_append, findFirst, if_neg (h1 x (by simp))]
    exact ih (fun y hy => h1 y (by simp [hy]))

theorem findFirst_split (p : α → Prop) [DecidablePred p] (l : List α) (a : α)
    (h : findFirst p l = some a) :
    ∃ l1 l2, l = l1 ++ a :: l2 ∧ (∀ x ∈ l1, ¬ p x) ∧ p a := by
  induction l with
  | nil => simp [findFirst] at h
  | cons x xs ih =>
    rw [findFirst] at h
    by_cases hx : p x
    · rw [if_pos hx] at h
      injection h with h
      subst h
      exact ⟨[], xs, rfl, by simp, hx⟩
    · rw [if_neg hx] at h
      obtain ⟨l1, l2, rfl, hl1, ha⟩ := ih h
      refine ⟨x :: l1, l2, rfl, ?_, ha⟩
      intro y hy
      rcases List.mem_cons.mp hy with rfl | hy
      · exact hx
      · exact hl1 y hy

theorem findFirst_isSome (p : α → Prop) [DecidablePred p] (l : List α)
    (h : ∃ x ∈ l, p x) : ∃ y, findFirst p l = some y ∧ p y := by
  induction l with
  | nil => simp at h
  | cons x xs ih =>
    by_cases hx : p x
    · exact ⟨x, by rw [findFirst, if_pos hx], hx⟩
    · obtain ⟨y, hy, hpy⟩ := h
      rcases List.mem_cons.mp hy with rfl | hy
      · exact absurd hpy hx
      · obtain ⟨z, hz, hpz⟩ := ih ⟨y, hy, hpy⟩
        exact ⟨z, by rw [findFirst, if_neg hx]; exact hz, hpz⟩

theorem not_of_findFirst_eq_none (p : α → Prop) [DecidablePred p] (l : List α)
    (h : findFirst p l = none) : ∀ x ∈ l, ¬ p x := by
  induction l with
  | nil => simp
  | cons x xs ih =>
    rw [findFirst] at h
    by_cases hx : p x
    · rw [if_pos hx] at h; exact absurd h (by simp)
    · rw [if_neg hx] at h
      intro y hy
      rcases List.mem_cons.mp hy with rfl | hy
      · exact hx
      · exact ih h y hy

theorem updateFirst_eq_self (p : α → Prop) [DecidablePred p] (f : α → α)
    (l : List α) (h : ∀ x ∈ l, ¬ p x) : updateFirst p f l = l := by
  induction l with
  | nil => rfl
  | cons x xs ih =>
    rw [updateFirst, if_neg (h x (by simp))]
    rw [ih (fun y hy => h y (by simp [hy]))]

theorem updateFirst_first (p : α → Prop) [DecidablePred p] (f : α → α)
    (l1 : List α) (a : α) (l2 : List α) (h1 : ∀ x ∈ l1, ¬ p x) (h2 : p a) :
    updateFirst p f (l1 ++ a :: l2) = l1 ++ f a :: l2 := by
  induction l1 with
  | nil => simp [updateFirst, if_pos h2]
  | cons x xs ih =>
    rw [List.cons_append, updateFirst, if_neg (h1 x (by simp)), List.cons_append,
      ih (fun y hy => h1 y (by simp [hy]))]

theorem mem_updateFirst (p : α → Prop) [DecidablePred p] (f : α → α)
    (l : List α) (x : α) (hx : x ∈ updateFirst p f l) :
    x ∈ l ∨ ∃ u ∈ l, p u ∧ x = f u := by
  induction l with
  | nil => simp [updateFirst] at hx
  | cons y ys ih =>
    rw [updateFirst] at hx
    by_cases hy : p y
    · rw [if_pos hy] at hx
      rcases List.mem_cons.mp hx with h | h
      · exact Or.inr ⟨y, by simp, hy, h⟩
      · exact Or.inl (by simp [h])
    · rw [if_neg hy] at hx
      rcases List.mem_cons.mp hx with h | h
      · exact Or.inl (by simp [h])
      · rcases ih h with h | ⟨u, hu, hpu, hxu⟩
        · exact Or.inl (by simp [h])
        · exact Or.inr ⟨u, by simp [hu], hpu, hxu⟩

/-! ### Builder lemmas -/

theorem addBlockToTx_ne_key (defs : Definitions) (acc : List (String × JValue))
    (b : Block) (k : String) (h : b.fieldName ≠ k) :
    getKey (addBlockToTx defs acc b) k = getKey acc k := by
  unfold addBlockToTx
  by_cases hf : b.value.isFalsy
  · simp [hf]
  · simp only [hf, Bool.false_eq_true, if_false]
    match hb : b.value with
    | .undef => rfl
    | .record members => exact getKey_setKey_ne _ _ _ _ (Ne.symm h)
    | .scalar s =>
      by_cases ha : isAmountInfo (getFieldInfo defs b.fieldName)
      · simp only [ha, if_true]
        exact getKey_setKey_ne _ _ _ _ (Ne.symm h)
      · simp only [ha, Bool.false_eq_true, if_false]
        cases jsonParse s with
        | none => exact getKey_setKey_ne _ _ _ _ (Ne.symm h)
        | some parsed => exact getKey_setKey_ne _ _ _ _ (Ne.symm h)

theorem addBlockToTx_falsy (defs : Definitions) (acc : List (String × JValue))
    (b : Block) (h : b.value.isFalsy = true) : addBlockToTx defs acc b = acc := by
  unfold addBlockToTx
  simp [h]

theorem foldl_addBlock_getKey (defs : Definitions) (bs : List Block)
    (acc : List (String × JValue)) (k : String)
    (h : ∀ b ∈ bs, b.fieldName = k → b.value.isFalsy = true) :
    getKey (bs.foldl (addBlockToTx defs) acc) k = getKey acc k := by
  induction bs generalizing acc with
  | nil => rfl
  | cons b bs ih =>
    rw [List.foldl_cons]
    rw [ih _ (fun u hu => h u (by simp [hu]))]
    by_cases hbk : b.fieldName = k
    · rw [addBlockToTx_falsy defs acc b (h b (by simp) hbk)]
    · exact addBlockToTx_ne_key defs acc b k hbk

theorem foldl_addBlock_ne_key (defs : Definitions) (bs : List Block)
    (acc : List (String × JValue)) (k : String)
    (h : ∀ b ∈ bs, b.fieldName ≠ k) :
    getKey (bs.foldl (addBlockToTx defs) acc) k = getKey acc k := by
  induction bs generalizing acc with
  | nil => rfl
  | cons b bs ih =>
    rw [List.foldl_cons, ih _ (fun u hu => h u (by simp [hu])),
      addBlockToTx_ne_key defs acc b k (h b (by simp))]

theorem previewAddBlock_blank (defs : Definitions) (acc : List (String × JValue))
    (b : Block) (h : blockBlank b) : previewAddBlock defs acc b = acc := by
  unfold previewAddBlock
  rcases h with h | ⟨s, hs, hws⟩
  · simp [h, RawValue.isFalsy]
  · rw [hs]
    by_cases he : s = ""
    · simp [RawValue.isFalsy, he]
    · simp [RawValue.isFalsy, he, hws]

theorem previewAddBlock_ne_key (defs : Definitions) (acc : List (String × JValue))
    (b : Block) (k : String) (h : b.fieldName ≠ k) :
    getKey (previewAddBlock defs acc b) k = getKey acc k := by
  unfold previewAddBlock
  by_cases hf : b.value.isFalsy
  · simp [hf]
  · simp only [hf, Bool.false_eq_true, if_false]
    match hb : b.value with
    | .undef => rfl
    | .record members => exact getKey_setKey_ne _ _ _ _ (Ne.symm h)
    | .scalar s =>
      by_cases hws : s.data.all isJsWsChar
      · simp [hws]
      · simp only [hws, Bool.false_eq_true, if_false]
        exact getKey_setKey_ne _ _ _ _ (Ne.symm h)

theorem foldl_previewAddBlock_getKey (defs : Definitions) (bs : List Block)
    (acc : List (String × JValue)) (k : String)
    (h : ∀ b ∈ bs, b.fieldName = k → blockBlank b) :
    getKey (bs.foldl (previewAddBlock defs) acc) k = getKey acc k := by
  induction bs generalizing acc with
  | nil => rfl
  | cons b bs ih =>
    rw [List.foldl_cons, ih _ (fun u hu => h u (by simp [hu]))]
    by_cases hbk : b.fieldName = k
    · rw [previewAddBlock_blank defs acc b (h b (by simp) hbk)]
    · exact previewAddBlock_ne_key defs acc b k hbk

theorem foldl_previewAddBlock_ne_key (defs : Definitions) (bs : List Block)
    (acc : List (String × JValue)) (k : String)
    (h : ∀ b ∈ bs, b.fieldName ≠ k) :
    getKey (bs.foldl (previewAddBlock defs) acc) k = getKey acc k := by
  induction bs generalizing acc with
  | nil => rfl
  | cons b bs ih =>
    rw [List.foldl_cons, ih _ (fun u hu => h u (by simp [hu])),
      previewAddBlock_ne_key defs acc b k (h b (by simp))]

/-! ### Runner lemmas -/

theorem updateFirst_chain3 (i : String) (f1 f2 f3 : Transaction → Transaction)
    (h1 : ∀ u, (f1 u).id = u.id) (h2 : ∀ u, (f2 u).id = u.id)
    (l1 : List Transaction) (a : Transaction) (l2 : List Transaction)
    (ha : a.id = i) (hpre : ∀ u ∈ l1, u.id ≠ i) :
    updateFirst (fun u => u.id = i) f3
      (updateFirst (fun u => u.id = i) f2
        (updateFirst (fun u => u.id = i) f1 (l1 ++ a :: l2)))
    = l1 ++ f3 (f2 (f1 a)) :: l2 := by
  rw [updateFirst_first _ f1 l1 a l2 hpre ha,
    updateFirst_first _ f2 l1 (f1 a) l2 hpre ((h1 a).trans ha),
    updateFirst_first _ f3 l1 (f2 (f1 a)) l2 hpre ((h2 (f1 a)).trans ((h1 a).trans ha))]

theorem runSingleTest_found (defs : Definitions) (env : NetworkEnv) (st : AppState)
    (l1 : List Transaction) (tx : Transaction) (l2 : List Transaction)
    (hset : st.transactions = l1 ++ tx :: l2)
    (hpre : ∀ u ∈ l1, u.id ≠ tx.id) :
    ∃ tx', (runSingleTest defs env st tx.id).1 = { st with transactions := l1 ++ tx' :: l2 }
      ∧ tx'.id = tx.id
      ∧ (tx'.status = TestStatus.failed ∨ tx'.status = TestStatus.passed) := by
  have hfind : findFirst (fun u => u.id = tx.id) st.transactions = some tx := by
    rw [hset]; exact findFirst_eq_first _ _ _ _ hpre rfl
  simp only [runSingleTest, hfind, updateTransactionStatus]
  by_cases hty : tx.type.getD "" = ""
  · rw [if_pos hty]
    rw [hset, updateFirst_first _ _ _ _ _ hpre rfl]
    exact ⟨_, rfl, rfl, Or.inl rfl⟩
  · rw [if_neg hty]
    cases hacc : findFirst Account.hasSeed st.accounts with
    | none =>
      simp only []
      rw [hset, updateFirst_first _ _ _ _ _ hpre rfl]
      exact ⟨_, rfl, rfl, Or.inl rfl⟩
    | some signingAccount =>
      simp only []
      rw [hset]
      split
      · rename_i actualResult hash heq
        rw [updateFirst_chain3 tx.id (applyStatus TestStatus.running none env.now)
          (recordSuccess actualResult hash env.now) _ (fun u => rfl) (fun u => rfl)
          l1 tx l2 rfl hpre]
        refine ⟨_, rfl, rfl, ?_⟩
        by_cases hres : actualResult = tx.expectedResult
        · rw [if_pos hres]; exact Or.inr rfl
        · rw [if_neg hres]; exact Or.inl rfl
      · rename_i message heq
        rw [updateFirst_chain3 tx.id (applyStatus TestStatus.running none env.now)
          (recordErrorResult ((extractResultCode message).getD message)) _
          (fun u => rfl) (fun u => rfl) l1 tx l2 rfl hpre]
        refine ⟨_, rfl, rfl, ?_⟩
        by_cases hres : (extractResultCode message).getD message = tx.expectedResult
        · rw [if_pos hres]; exact Or.inr rfl
        · rw [if_neg hres]; exact Or.inl rfl

theorem runLoop_terminal (defs : Definitions) (env : NetworkEnv) :
    ∀ (l2 l1 : List Transaction) (st : AppState),
    st.transactions = l1 ++ l2 →
    ((l1 ++ l2).map (fun u => u.id)).Nodup →
    ∃ l2',
      (runLoop defs env st (l2.map (fun u => u.id))).1 = { st with transactions := l1 ++ l2' }
      ∧ l2'.map (fun u => u.id) = l2.map (fun u => u.id)
      ∧ (∀ u ∈ l2', u.status = TestStatus.failed ∨ u.status = TestStatus.passed)
      ∧ (runLoop defs env st (l2.map (fun u => u.id))).2.map (fun r => r.1)
          = l2.map (fun u => u.id) := by
  intro l2
  induction l2 with
  | nil =>
    intro l1 st hset _
    refine ⟨[], ?_, rfl, by simp, rfl⟩
    have h0 : l1 ++ ([] : List Transaction) = st.transactions := by
      rw [hset]
    simp only [List.map_nil, runLoop]
    rw [h0]
  | cons tx rest ih =>
    intro l1 st hset hnodup
    have hpre : ∀ u ∈ l1, u.id ≠ tx.id := by
      intro u hu e
      have h1 : ((l1.map (fun u => u.id)) ++ tx.id :: (rest.map (fun u => u.id))).Nodup := by
        simpa using hnodup
      have hdisj := (List.nodup_append.mp h1).2.2
      exact hdisj (List.mem_map_of_mem _ hu) (by rw [e]; exact List.mem_cons_self _ _)
    obtain ⟨tx', hst1, hid, hterm⟩ := runSingleTest_found defs env st l1 tx rest hset hpre
    have hset1 : (runSingleTest defs env st tx.id).1.transactions = (l1 ++ [tx']) ++ rest := by
      rw [hst1]
      simp
    have hids : ((l1 ++ [tx']) ++ rest).map (fun u => u.id)
        = (l1 ++ tx :: rest).map (fun u => u.id) := by
      simp [hid]
    obtain ⟨l2', hst2, hmap, hterm', hlog⟩ :=
      ih (l1 ++ [tx']) (runSingleTest defs env st tx.id).1 hset1 (by rw [hids]; exact hnodup)
    refine ⟨tx' :: l2', ?_, ?_, ?_, ?_⟩
    · rw [List.map_cons, runLoop]
      simp only []
      rw [hst2, hst1, ← List.append_cons]
    · simp [hid, hmap]
    · intro u hu
      rcases List.mem_cons.mp hu with rfl | hu
      · exact hterm
      · exact hterm' u hu
    · rw [List.map_cons, runLoop]
      simp only []
      rw [List.map_cons, hlog]

theorem countPassed_add_countFailed (txs : List Transaction)
    (h : ∀ tx ∈ txs, tx.status = TestStatus.passed ∨ tx.status = TestStatus.failed) :
    countPassed txs + countFailed txs = txs.length := by
  induction txs with
  | nil => rfl
  | cons tx rest ih =>
    have hrest := ih (fun u hu => h u (by simp [hu]))
    rcases h tx (by simp) with hp | hf
    · have e1 : countPassed (tx :: rest) = countPassed rest + 1 := by
        simp [countPassed, List.filter_cons, hp]
      have e2 : countFailed (tx :: rest) = countFailed rest := by
        simp [countFailed, List.filter_cons, hp]
      rw [e1, e2, List.length_cons]
      omega
    · have e1 : countPassed (tx :: rest) = countPassed rest := by
        simp [countPassed, List.filter_cons, hf]
      have e2 : countFailed (tx :: rest) = countFailed rest + 1 := by
        simp [countFailed, List.filter_cons, hf]
      rw [e1, e2, List.length_cons]
      omega

/-! ### Claim theorems -/

/-- C10: `updateTransactionStatus(id, status, result)` with an unknown
id leaves every test unchanged; for an existing test with `result`
omitted (`null`), only the status changes (`actualResult` is preserved,
`submittedAt` is stamped exactly when the new status is `running`), and
every other field of every test is untouched. -/
theorem claim_C10_updateTransactionStatus_frame (txs : List Transaction)
    (id : String) (status : TestStatus) (result : Option String) (now : String)
    (l1 : List Transaction) (tx : Transaction) (l2 : List Transaction) :
    ((∀ u ∈ txs, u.id ≠ id) → updateTransactionStatus txs id status result now = txs)
    ∧ (txs = l1 ++ tx :: l2 → (∀ u ∈ l1, u.id ≠ id) → tx.id = id →
        updateTransactionStatus txs id status none now
          = l1 ++ { tx with status := status, submittedAt := if status = TestStatus.running then some now else tx.submittedAt } :: l2) := by
  constructor
  · intro h
    exact updateFirst_eq_self _ _ txs h
  · intro hset hpre hid
    unfold updateTransactionStatus
    rw [hset, updateFirst_first _ _ l1 tx l2 hpre hid]
    rfl

/-- C10 witness: a concrete two-test registry, updating the second test
by id with a null result, and updating with an absent id. -/
theorem claim_C10_witness :
    updateTransactionStatus [sampleNoTypeTx, sampleTecTx] "tx-1" TestStatus.failed none "T"
      = [sampleNoTypeTx, { sampleTecTx with status := TestStatus.failed }]
    ∧ updateTransactionStatus [sampleNoTypeTx, sampleTecTx] "tx-9" TestStatus.failed (some "x") "T"
      = [sampleNoTypeTx, sampleTecTx] := by
  constructor
  · exact (claim_C10_updateTransactionStatus_frame [sampleNoTypeTx, sampleTecTx]
      "tx-1" TestStatus.failed none "T" [sampleNoTypeTx] sampleTecTx []).2 rfl
      (by decide) rfl
  · exact (claim_C10_updateTransactionStatus_frame [sampleNoTypeTx, sampleTecTx]
      "tx-9" TestStatus.failed (some "x") "T" [] sampleNoTypeTx []).1
      (by decide)

/-- C2: a test whose transaction type is unset is failed fast with
`actualResult = "No transaction type"`, and the network client is never
invoked (empty network trace). -/
theorem claim_C2_no_type_fails_fast (defs : Definitions) (env : NetworkEnv)
    (st : AppState) (l1 : List Transaction) (tx : Transaction) (l2 : List Transaction)
    (hset : st.transactions = l1 ++ tx :: l2) (hpre : ∀ u ∈ l1, u.id ≠ tx.id)
    (hty : tx.type = none) :
    runSingleTest defs env st tx.id
      = ({ st with transactions := l1 ++ { tx with status := TestStatus.failed, actualResult := some "No transaction type" } :: l2 }, []) := by
  have hfind : findFirst (fun u => u.id = tx.id) st.transactions = some tx := by
    rw [hset]; exact findFirst_eq_first _ _ _ _ hpre rfl
  simp only [runSingleTest, hfind, updateTransactionStatus]
  rw [if_pos (by rw [hty]; rfl)]
  rw [hset, updateFirst_first _ _ l1 tx l2 hpre rfl]
  rfl

/-- C2 witness: running the fresh no-type test yields a failed status,
the fixed message, and no network events. -/
theorem claim_C2_witness :
    runSingleTest sampleDefs sampleEnv ⟨[sampleNoTypeTx], some "tx-0", [sampleAccount]⟩ "tx-0"
      = (⟨[{ sampleNoTypeTx with status := TestStatus.failed, actualResult := some "No transaction type" }], some "tx-0", [sampleAccount]⟩, []) :=
  claim_C2_no_type_fails_fast sampleDefs sampleEnv _ [] sampleNoTypeTx []
    rfl (by simp) rfl

/-- C9: the pass rate is `round(100 * passed / total)` with `Math.round`
semantics (half rounds up), it is `0` when the collection is empty, the
`{passed 2, failed 1, total 3}` example yields `67`, and the report
summary derives `total` from the whole collection. -/
theorem claim_C9_pass_rate :
    (∀ passed total : ℕ, 0 < total →
        passRate passed total = jsMathRound ((100 * (passed : ℚ)) / (total : ℚ)))
    ∧ passRate 0 0 = 0
    ∧ passRate 2 3 = 67
    ∧ (∀ txs : List Transaction,
        reportSummary txs
          = (txs.length, countPassed txs, countFailed txs, passRate (countPassed txs) txs.length)) := by
  refine ⟨?_, rfl, ?_, fun txs => rfl⟩
  · intro p t ht
    unfold passRate
    rw [if_pos ht]
    unfold jsMathRound
    congr 1
    ring
  · unfold passRate jsMathRound
    rw [if_pos (by norm_num)]
    have h1 : ((2 : ℕ) : ℚ) / ((3 : ℕ) : ℚ) * 100 + 1 / 2 = 403 / 6 := by norm_num
    rw [h1]
    rw [Int.floor_eq_iff]
    constructor <;> norm_num

/-- C9 witness: the general rounding form applied at `passed = 2`,
`total = 3`. -/
theorem claim_C9_witness :
    (0 < 3) ∧ passRate 2 3 = jsMathRound ((100 * ((2 : ℕ) : ℚ)) / ((3 : ℕ) : ℚ)) :=
  ⟨by norm_num, claim_C9_pass_rate.1 2 3 (by norm_num)⟩

/-- C8: adding a field whose name is already present on the current test
is rejected — the state is unchanged and a warning is surfaced — and
`addFieldBlock` preserves uniqueness of field names within every test. -/
theorem claim_C8_addField_duplicate_rejected (st : AppState) (fieldName : String)
    (tx : Transaction) (hcur : getCurrentTransaction st = some tx)
    (hdup : ∃ b ∈ tx.blocks, b.fieldName = fieldName) :
    addFieldBlock st fieldName = (st, true)
    ∧ (∀ (st' : AppState) (f : String),
        (∀ u ∈ st'.transactions, (u.blocks.map (fun b => b.fieldName)).Nodup) →
        ∀ u ∈ (addFieldBlock st' f).1.transactions,
          (u.blocks.map (fun b => b.fieldName)).Nodup) := by
  constructor
  · obtain ⟨y, hy, _⟩ := findFirst_isSome (fun b => b.fieldName = fieldName) tx.blocks hdup
    simp only [addFieldBlock, hcur, hy]
  · intro st' f hnodup u hu
    unfold addFieldBlock at hu
    cases hc : getCurrentTransaction st' with
    | none =>
      rw [hc] at hu
      exact hnodup u hu
    | some txc =>
      rw [hc] at hu
      simp only [] at hu
      cases hd : findFirst (fun b => b.fieldName = f) txc.blocks with
      | some b =>
        rw [hd] at hu
        exact hnodup u hu
      | none =>
        rw [hd] at hu
        simp only [] at hu
        have hnotin : ∀ b ∈ txc.blocks, b.fieldName ≠ f :=
          not_of_findFirst_eq_none _ _ hd
        unfold getCurrentTransaction at hc
        cases hcid : st'.currentTransactionId with
        | none => rw [hcid] at hc; exact absurd hc (by simp)
        | some cid =>
          rw [hcid] at hc
          obtain ⟨m1, m2, hsplit, hm1, hptxc⟩ := findFirst_split _ _ _ hc
          have hfirst : updateFirst (fun w => w.id = txc.id)
              (fun w => { w with blocks := w.blocks ++ [⟨f, .scalar ""⟩] })
              st'.transactions
              = m1 ++ { txc with blocks := txc.blocks ++ [⟨f, .scalar ""⟩] } :: m2 := by
            rw [hsplit]
            exact updateFirst_first _ _ m1 txc m2
              (fun x hx e => hm1 x hx (e.trans hptxc)) rfl
          rw [hfirst] at hu
          rcases List.mem_append.mp hu with h1 | h1
          · exact hnodup u (by rw [hsplit]; exact List.mem_append.mpr (Or.inl h1))
          · rcases List.mem_cons.mp h1 with rfl | h1
            · rw [List.map_append, List.nodup_append]
              refine ⟨hnodup txc (by rw [hsplit]; simp), by simp, ?_⟩
              intro a ha hb
              simp only [List.map_cons, List.map_nil, List.mem_singleton] at hb
              obtain ⟨bb, hbb, rfl⟩ := List.mem_map.mp ha
              exact hnotin bb hbb hb
            · exact hnodup u
                (by rw [hsplit]
                    exact List.mem_append.mpr (Or.inr (List.mem_cons.mpr (Or.inr h1))))

/-- C8 witness: re-adding the `Amount` field to a test that already has
it leaves the state unchanged and surfaces the warning flag. -/
theorem claim_C8_witness :
    addFieldBlock ⟨[sampleAmountTx], some "tx-3", []⟩ "Amount"
      = (⟨[sampleAmountTx], some "tx-3", []⟩, true) :=
  (claim_C8_addField_duplicate_rejected ⟨[sampleAmountTx], some "tx-3", []⟩ "Amount"
    sampleAmountTx rfl
    ⟨⟨"Amount", RawValue.scalar "1000000"⟩,
      by rw [show sampleAmountTx.blocks = [⟨"Amount", RawValue.scalar "1000000"⟩] from rfl]; simp,
      rfl⟩).1

/-- C4: a scalar value of a field whose resolved catalog type is
`Amount` always appears in the built transaction object as a string
(never numeric, with no JSON parsing attempted regardless of the text),
and `convertFieldValue` on an `Amount` field is string coercion. -/
theorem claim_C4_amount_scalar_stays_string (defs : Definitions) (tx : Transaction)
    (bs1 bs2 : List Block) (b : Block) (s : String) (fi : FieldInfo)
    (hblocks : tx.blocks = bs1 ++ b :: bs2)
    (hval : b.value = RawValue.scalar s) (hs : s ≠ "")
    (hinfo : getFieldInfo defs b.fieldName = some fi) (hamount : fi.type = "Amount")
    (hlater : ∀ u ∈ bs2, u.fieldName ≠ b.fieldName) :
    getKey (buildTransactionObjectFromTest defs tx) b.fieldName = some (JValue.str s)
    ∧ (∀ value : String, convertFieldValue value (some fi) = JValue.str value) := by
  have hconv : ∀ value : String, convertFieldValue value (some fi) = JValue.str value := by
    intro value
    unfold convertFieldValue
    simp only []
    rw [if_pos hamount]
  refine ⟨?_, hconv⟩
  unfold buildTransactionObjectFromTest
  rw [hblocks, List.foldl_append, List.foldl_cons]
  have hstep : ∀ acc, addBlockToTx defs acc b = setKey acc b.fieldName (JValue.str s) := by
    intro acc
    unfold addBlockToTx
    rw [hval]
    rw [if_neg (by simp [RawValue.isFalsy, hs])]
    simp only []
    rw [if_pos (by simp [isAmountInfo, hinfo, hamount]), hinfo, hconv]
  rw [hstep, foldl_addBlock_ne_key defs bs2 _ _ hlater, getKey_setKey_self]

/-- C4 witness: the `Amount` field value `"1000000"` — a string that is
valid JSON number text — is built as the string `"1000000"`. -/
theorem claim_C4_witness :
    getKey (buildTransactionObjectFromTest sampleDefs sampleAmountTx) "Amount"
      = some (JValue.str "1000000")
    ∧ convertFieldValue "1000000" (some ⟨"Amount"⟩) = JValue.str "1000000" := by
  have h := claim_C4_amount_scalar_stays_string sampleDefs sampleAmountTx
    [] [] ⟨"Amount", RawValue.scalar "1000000"⟩ "1000000" ⟨"Amount"⟩
    rfl rfl (by simp) rfl rfl (by simp)
  exact ⟨h.1, h.2 "1000000"⟩

/-- C7 counterexample: `"5abc"` is not valid base-10 integer text, yet a
`UInt32` field coerces it to the number `5` rather than leaving the
original string — JavaScript `parseInt` accepts a digit prefix and
discards the rest. -/
theorem claim_C7_counterexample :
    specValidBase10IntegerText "5abc" = false
    ∧ convertFieldValue "5abc" (some ⟨"UInt32"⟩) = JValue.num 5
    ∧ convertFieldValue "5abc" (some ⟨"UInt32"⟩) ≠ JValue.str "5abc" := by
  have h5 : convertFieldValue "5abc" (some ⟨"UInt32"⟩) = JValue.num 5 := by rfl
  refine ⟨rfl, h5, ?_⟩
  intro h
  rw [h5] at h
  exact JValue.noConfusion h

/-- C7 (amended): for `UInt*`/`Number` fields, the coercion follows
JavaScript `parseInt(value, 10)`: when the parse yields an integer the
field becomes that integer (`"5"` ↦ `5`, and also `"5abc"` ↦ `5`); when
no digits can be parsed the original string is kept unchanged — never
zero, never an exception (`"abc"` ↦ `"abc"`); and the builder reaches
this coercion exactly when the value does not parse as JSON. -/
theorem claim_C7_uint_coercion (fi : FieldInfo)
    (hnum : typeStartsWithUInt fi.type = true ∨ fi.type = "Number") :
    (∀ s n, jsParseInt10 s = some n → convertFieldValue s (some fi) = JValue.num (n : ℚ))
    ∧ (∀ s, jsParseInt10 s = none → convertFieldValue s (some fi) = JValue.str s)
    ∧ convertFieldValue "5" (some fi) = JValue.num 5
    ∧ convertFieldValue "abc" (some fi) = JValue.str "abc"
    ∧ (∀ (defs : Definitions) acc (b : Block) (s : String),
        b.value = RawValue.scalar s → s ≠ "" →
        getFieldInfo defs b.fieldName = some fi → jsonParse s = none →
        addBlockToTx defs acc b = setKey acc b.fieldName (convertFieldValue s (some fi))) := by
  have hA : fi.type ≠ "Amount" := by
    intro e
    rcases hnum with h1 | h1
    · rw [e] at h1; exact Bool.noConfusion h1
    · rw [e] at h1; exact absurd h1 (by decide)
  have hcond : (typeStartsWithUInt fi.type || decide (fi.type = "Number")) = true := by
    rcases hnum with h1 | h1 <;> simp [h1]
  have hsome : ∀ s n, jsParseInt10 s = some n →
      convertFieldValue s (some fi) = JValue.num (n : ℚ) := by
    intro s n h
    unfold convertFieldValue
    simp only []
    rw [if_neg hA, if_pos hcond, h]
  have hnone : ∀ s, jsParseInt10 s = none →
      convertFieldValue s (some fi) = JValue.str s := by
    intro s h
    unfold convertFieldValue
    simp only []
    rw [if_neg hA, if_pos hcond, h]
  refine ⟨hsome, hnone, ?_, hnone "abc" rfl, ?_⟩
  · have h := hsome "5" 5 rfl
    rwa [show ((5 : ℤ) : ℚ) = (5 : ℚ) by norm_num] at h
  · intro defs acc b s hval hs hinfo hjson
    unfold addBlockToTx
    rw [hval]
    rw [if_neg (by simp [RawValue.isFalsy, hs])]
    simp only []
    rw [if_neg (by simp [isAmountInfo, hinfo, hA]), hjson, hinfo]

/-- C7 witness: the amended coercion at the `UInt32` field kind, on the
specification's own examples. -/
theorem claim_C7_witness :
    convertFieldValue "5" (some ⟨"UInt32"⟩) = JValue.num 5
    ∧ convertFieldValue "abc" (some ⟨"UInt32"⟩) = JValue.str "abc" :=
  ⟨(claim_C7_uint_coercion ⟨"UInt32"⟩ (Or.inl rfl)).2.2.1,
   (claim_C7_uint_coercion ⟨"UInt32"⟩ (Or.inl rfl)).2.2.2.1⟩

/-- C5 counterexample: for a test with no transaction type,
`buildTransactionObjectFromTest` does not omit the `TransactionType`
key — the key is present with a null value. -/
theorem claim_C5_counterexample :
    getKey (buildTransactionObjectFromTest sampleDefs sampleNoTypeTx) "TransactionType" ≠ none
    ∧ getKey (buildTransactionObjectFromTest sampleDefs sampleNoTypeTx) "TransactionType"
        = some JValue.null := by
  have e : getKey (buildTransactionObjectFromTest sampleDefs sampleNoTypeTx) "TransactionType"
      = some JValue.null := by rfl
  refine ⟨?_, e⟩
  intro h
  rw [e] at h
  exact Option.noConfusion h

/-- C5 (amended): both builders set `TransactionType` from the test's
type when it is present; when it is absent, the JSON-preview builder
(`buildTransactionObject`) omits the key entirely, while the test-run
builder (`buildTransactionObjectFromTest`) emits the key with a null
value. -/
theorem claim_C5_transaction_type_key (defs : Definitions) (tx : Transaction)
    (t : String) (hblocks : ∀ b ∈ tx.blocks, b.fieldName ≠ "TransactionType") :
    (tx.type = some t → t ≠ "" →
      getKey (buildTransactionObjectFromTest defs tx) "TransactionType" = some (JValue.str t)
      ∧ getKey (buildTransactionObject defs tx.type tx.blocks) "TransactionType" = some (JValue.str t))
    ∧ (tx.type = none →
      getKey (buildTransactionObjectFromTest defs tx) "TransactionType" = some JValue.null
      ∧ getKey (buildTransactionObject defs tx.type tx.blocks) "TransactionType" = none) := by
  constructor
  · intro hty ht
    constructor
    · unfold buildTransactionObjectFromTest
      rw [foldl_addBlock_ne_key defs tx.blocks _ _ hblocks, hty]
      simp [getKey, List.find?]
    · unfold buildTransactionObject
      rw [foldl_previewAddBlock_ne_key defs tx.blocks _ _ hblocks, hty]
      rw [if_pos (by simpa using ht)]
      simp [getKey, List.find?, hty]
  · intro hty
    constructor
    · unfold buildTransactionObjectFromTest
      rw [foldl_addBlock_ne_key defs tx.blocks _ _ hblocks, hty]
      simp [getKey, List.find?]
    · unfold buildTransactionObject
      rw [foldl_previewAddBlock_ne_key defs tx.blocks _ _ hblocks, hty]
      rw [if_neg (by simp)]
      rfl

/-- C5 witness: the amended behavior at a concrete Payment test (type
present) and at the fresh no-type test. -/
theorem claim_C5_witness :
    (getKey (buildTransactionObjectFromTest sampleDefs sampleAmountTx) "TransactionType"
        = some (JValue.str "Payment")
      ∧ getKey (buildTransactionObject sampleDefs sampleAmountTx.type sampleAmountTx.blocks) "TransactionType"
        = some (JValue.str "Payment"))
    ∧ (getKey (buildTransactionObjectFromTest sampleDefs sampleNoTypeTx) "TransactionType"
        = some JValue.null
      ∧ getKey (buildTransactionObject sampleDefs sampleNoTypeTx.type sampleNoTypeTx.blocks) "TransactionType"
        = none) :=
  ⟨(claim_C5_transaction_type_key sampleDefs sampleAmountTx "Payment"
      (by intro b hb
          rw [show sampleAmountTx.blocks = [⟨"Amount", RawValue.scalar "1000000"⟩] from rfl] at hb
          rw [List.mem_singleton.mp hb]
          decide)).1 rfl (by decide),
   (claim_C5_transaction_type_key sampleDefs sampleNoTypeTx "x"
      (by intro b hb
          rw [show sampleNoTypeTx.blocks = [] from rfl] at hb
          exact absurd hb (by simp))).2 rfl⟩

/-- C6 counterexample: a whitespace-only scalar (`" "` for
`Destination`) is not omitted by `buildTransactionObjectFromTest` — the
key is present, holding the whitespace string. -/
theorem claim_C6_counterexample :
    getKey (buildTransactionObjectFromTest sampleDefs sampleWsTx) "Destination" ≠ none
    ∧ getKey (buildTransactionObjectFromTest sampleDefs sampleWsTx) "Destination"
        = some (JValue.str " ") := by
  have e : getKey (buildTransactionObjectFromTest sampleDefs sampleWsTx) "Destination"
      = some (JValue.str " ") := by rfl
  refine ⟨?_, e⟩
  intro h
  rw [e] at h
  exact Option.noConfusion h

/-- C6 (amended): the JSON-preview builder omits a field whenever every
block with that name has an absent, empty, or blank-after-trimming
scalar value; the test-run builder omits a field only when every block
with that name is absent or exactly empty (a whitespace-only scalar is
kept verbatim, as the counterexample shows). -/
theorem claim_C6_empty_and_blank_fields (defs : Definitions) (txType : Option String)
    (blocks : List Block) (tx : Transaction) (k : String) (hk : k ≠ "TransactionType") :
    ((∀ b ∈ blocks, b.fieldName = k → blockBlank b) →
        getKey (buildTransactionObject defs txType blocks) k = none)
    ∧ ((∀ b ∈ tx.blocks, b.fieldName = k → b.value.isFalsy = true) →
        getKey (buildTransactionObjectFromTest defs tx) k = none) := by
  constructor
  · intro h
    unfold buildTransactionObject
    rw [foldl_previewAddBlock_getKey defs blocks _ k h]
    by_cases hty : txType.getD "" ≠ ""
    · rw [if_pos hty]
      simp [getKey, List.find?, Ne.symm hk]
    · rw [if_neg hty]
      rfl
  · intro h
    unfold buildTransactionObjectFromTest
    rw [foldl_addBlock_getKey defs tx.blocks _ k h]
    simp [getKey, List.find?, Ne.symm hk]

/-- C6 witness: an explicitly added `Amount` field whose value is the
empty string is omitted by both builders. -/
theorem claim_C6_witness :
    getKey (buildTransactionObject sampleDefs (some "Payment") [⟨"Amount", RawValue.scalar ""⟩]) "Amount" = none
    ∧ getKey (buildTransactionObjectFromTest sampleDefs { sampleNoTypeTx with type := some "Payment", blocks := [⟨"Amount", RawValue.scalar ""⟩] }) "Amount" = none := by
  have h := claim_C6_empty_and_blank_fields sampleDefs (some "Payment")
    [⟨"Amount", RawValue.scalar ""⟩]
    { sampleNoTypeTx with type := some "Payment", blocks := [⟨"Amount", RawValue.scalar ""⟩] }
    "Amount" (by decide)
  refine ⟨h.1 ?_, h.2 ?_⟩
  · intro b hb _
    rw [List.mem_singleton.mp hb]
    exact Or.inr ⟨"", rfl, rfl⟩
  · intro b hb _
    rw [show ({ sampleNoTypeTx with type := some "Payment", blocks := [⟨"Amount", RawValue.scalar ""⟩] } : Transaction).blocks = [⟨"Amount", RawValue.scalar ""⟩] from rfl] at hb
    rw [List.mem_singleton.mp hb]
    rfl

/-- C1: when the submission rejects, a ledger-style result code
extracted from the error text becomes `actualResult` and the test passes
exactly when that code equals `expectedResult`; when no code is
extractable the raw error text becomes `actualResult` and — whenever
`expectedResult` is itself a ledger-style result code, as every value
offered by the UI is — the test is graded failed. -/
theorem claim_C1_error_code_classification (defs : Definitions) (env : NetworkEnv)
    (st : AppState) (l1 : List Transaction) (tx : Transaction) (l2 : List Transaction)
    (msg : String)
    (hset : st.transactions = l1 ++ tx :: l2) (hpre : ∀ u ∈ l1, u.id ≠ tx.id)
    (hty : tx.type.getD "" ≠ "")
    (hacc : ∃ a, findFirst Account.hasSeed st.accounts = some a)
    (hout : ∀ o, env.outcome o = SubmitOutcome.error msg) :
    ∃ tx', (runSingleTest defs env st tx.id).1 = { st with transactions := l1 ++ tx' :: l2 }
      ∧ (∀ code, extractResultCode msg = some code →
          tx'.actualResult = some code
          ∧ (tx'.status = TestStatus.passed ↔ code = tx.expectedResult))
      ∧ (extractResultCode msg = none → tx'.actualResult = some msg)
      ∧ (extractResultCode msg = none →
          (∃ e, extractResultCode tx.expectedResult = some e) →
          tx'.status = TestStatus.failed) := by
  obtain ⟨acct, hacct⟩ := hacc
  have hfind : findFirst (fun u => u.id = tx.id) st.transactions = some tx := by
    rw [hset]; exact findFirst_eq_first _ _ _ _ hpre rfl
  simp only [runSingleTest, hfind, updateTransactionStatus]
  rw [if_neg hty]
  simp only [hacct]
  rw [hout]
  simp only []
  rw [hset]
  rw [updateFirst_chain3 tx.id (applyStatus TestStatus.running none env.now)
    (recordErrorResult ((extractResultCode msg).getD msg)) _
    (fun u => rfl) (fun u => rfl) l1 tx l2 rfl hpre]
  refine ⟨_, rfl, ?_, ?_, ?_⟩
  · intro code hc
    rw [hc]
    refine ⟨rfl, ?_⟩
    by_cases hres : code = tx.expectedResult
    · simp [applyStatus, hres]
    · simp [applyStatus, hres]
  · intro hn
    rw [hn]
    rfl
  · intro hn he
    obtain ⟨e, he⟩ := he
    have hne : msg ≠ tx.expectedResult := by
      intro ee
      rw [ee, he] at hn
      exact Option.noConfusion hn
    rw [hn]
    simp [applyStatus, hne]

/-- C1 witness: expecting `tecNO_DST` while the client rejects with an
error whose text embeds `tecNO_DST` grades the test `passed`, with the
extracted code as `actualResult`. -/
theorem claim_C1_witness :
    extractResultCode "Transaction failed, tecNO_DST: The destination account does not exist."
      = some "tecNO_DST"
    ∧ (runSingleTest sampleDefs sampleTecEnv ⟨[sampleTecTx], some "tx-1", [sampleAccount]⟩ "tx-1").1.transactions.map
        (fun u => (u.status, u.actualResult))
      = [(TestStatus.passed, some "tecNO_DST")] := by
  refine ⟨by rfl, ?_⟩
  obtain ⟨tx', h1, h2, h3, h4⟩ := claim_C1_error_code_classification sampleDefs sampleTecEnv
    ⟨[sampleTecTx], some "tx-1", [sampleAccount]⟩ [] sampleTecTx []
    "Transaction failed, tecNO_DST: The destination account does not exist."
    rfl (by simp) (by decide) ⟨sampleAccount, by rfl⟩ (fun o => rfl)
  rw [show sampleTecTx.id = "tx-1" from rfl] at h1
  rw [h1]
  obtain ⟨ha, hiff⟩ := h2 "tecNO_DST" (by rfl)
  have hst : tx'.status = TestStatus.passed := hiff.mpr rfl
  simp [hst, ha]

/-- C3: `runAllTests` first resets every test to its initial state
(pending, with result fields cleared), then performs exactly one
single-test run per test, in registry order, threading the state so each
run completes before the next starts; no outcome aborts the batch, every
test ends `passed` or `failed`, and the passed and failed counts sum to
the registry size. -/
theorem claim_C3_run_all (defs : Definitions) (env : NetworkEnv) (st : AppState)
    (hnodup : (st.transactions.map (fun u => u.id)).Nodup) :
    (∀ u ∈ st.transactions.map resetTest,
        u.status = TestStatus.pending ∧ u.actualResult = none
        ∧ u.hash = none ∧ u.submittedAt = none)
    ∧ (runAllTests defs env st).2.map (fun r => r.1) = st.transactions.map (fun u => u.id)
    ∧ (∀ u ∈ (runAllTests defs env st).1.transactions,
        u.status = TestStatus.passed ∨ u.status = TestStatus.failed)
    ∧ countPassed (runAllTests defs env st).1.transactions
        + countFailed (runAllTests defs env st).1.transactions
        = st.transactions.length := by
  have hids : (st.transactions.map resetTest).map (fun u => u.id)
      = st.transactions.map (fun u => u.id) := by
    rw [List.map_map]; rfl
  obtain ⟨l2', h1, hmap, hterm, hlog⟩ := runLoop_terminal defs env
    (st.transactions.map resetTest) []
    { st with transactions := st.transactions.map resetTest }
    rfl (by rw [List.nil_append, hids]; exact hnodup)
  have hback : runAllTests defs env st
      = runLoop defs env { st with transactions := st.transactions.map resetTest }
        ((st.transactions.map resetTest).map (fun u => u.id)) := rfl
  have hfin : (runAllTests defs env st).1.transactions = l2' := by
    rw [hback, h1]
    simp
  have hlen : l2'.length = st.transactions.length := by
    have := congrArg List.length hmap
    simpa using this
  refine ⟨?_, ?_, ?_, ?_⟩
  · intro u hu
    obtain ⟨v, hv, rfl⟩ := List.mem_map.mp hu
    exact ⟨rfl, rfl, rfl, rfl⟩
  · rw [hback, hlog]
    exact hids
  · intro u hu
    rw [hfin] at hu
    exact (hterm u hu).symm
  · rw [hfin]
    rw [countPassed_add_countFailed l2' (fun u hu => (hterm u hu).symm)]
    exact hlen

/-- C3 witness: a registry of three pending tests runs to completion
with `passed + failed = 3`. -/
theorem claim_C3_witness :
    countPassed (runAllTests sampleDefs sampleEnv
        ⟨[createTransaction "tx-1" "Test 1", createTransaction "tx-2" "Test 2", createTransaction "tx-3" "Test 3"], some "tx-1", []⟩).1.transactions
      + countFailed (runAllTests sampleDefs sampleEnv
        ⟨[createTransaction "tx-1" "Test 1", createTransaction "tx-2" "Test 2", createTransaction "tx-3" "Test 3"], some "tx-1", []⟩).1.transactions
      = 3 :=
  (claim_C3_run_all sampleDefs sampleEnv
    ⟨[createTransaction "tx-1" "Test 1", createTransaction "tx-2" "Test 2", createTransaction "tx-3" "Test 3"], some "tx-1", []⟩
    (by decide)).2.2.2

end Quark
